import Mathlib

/-!
Verification development for the transactional-dataset preprocessing module
(`src/preprocess.py`).  The Python functions are shallowly embedded as Lean
definitions over `String` / `List` values:

* file access and the CSV/JSON tokenizers are external collaborators, so the
  tabular loaders take the already-parsed rows (`List (List String)`) and the
  JSON loader takes an already-parsed `Json` value;
* Python `float(...)` is modelled by an exact decimal parser producing either
  `nan`, a signed infinity, or an exact scaled integer `num / den` with `den`
  a power of ten.  This deviates from IEEE-754 binary doubles in two
  documented ways: (a) ties in 2-decimal rounding are resolved half-to-even on
  the exact decimal value, while CPython rounds the nearest binary double,
  and (b) overflow/underflow to `inf`/`0.0` is not modelled.  No claim below
  depends on such inputs;
* `str.strip` / `str.lower` are modelled on ASCII (the module's data is
  ASCII); exceptions are modelled with `Except PyError`.
-/

/-! ### ASCII character tables (model of `str.lower`, digits, whitespace) -/

/-- The ASCII upper/lower case table behind our model of Python `str.lower`. -/
def lowerPairs : List (Char × Char) :=
  [('A', 'a'), ('B', 'b'), ('C', 'c'), ('D', 'd'), ('E', 'e'), ('F', 'f'),
   ('G', 'g'), ('H', 'h'), ('I', 'i'), ('J', 'j'), ('K', 'k'), ('L', 'l'),
   ('M', 'm'), ('N', 'n'), ('O', 'o'), ('P', 'p'), ('Q', 'q'), ('R', 'r'),
   ('S', 's'), ('T', 't'), ('U', 'u'), ('V', 'v'), ('W', 'w'), ('X', 'x'),
   ('Y', 'y'), ('Z', 'z')]

/-- Lower-case one character (ASCII model of Python case folding). -/
def pyLowerChar (c : Char) : Char :=
  ((lowerPairs.find? (fun p => p.1 = c)).map (fun p => p.2)).getD c

/-- Model of Python `s.lower()` (ASCII). -/
def pyLower (s : String) : String := ⟨s.data.map pyLowerChar⟩

/-- The whitespace characters stripped by Python `str.strip()` (ASCII part). -/
def wsChars : List Char := [' ', '\t', '\n', '\x0d', '\x0b', '\x0c']

/-- Model of Python `s.strip()`: drop leading and trailing whitespace. -/
def pyStrip (s : String) : String :=
  ⟨(((s.data.dropWhile (fun c => c ∈ wsChars)).reverse.dropWhile
      (fun c => c ∈ wsChars)).reverse)⟩

/-- Model of Python `s.replace(' ', '_')`. -/
def strReplaceSpace (s : String) : String :=
  ⟨s.data.map (fun c => if c = ' ' then '_' else c)⟩

/-- The ten decimal digit characters. -/
def digitChars : List Char := ['0', '1', '2', '3', '4', '5', '6', '7', '8', '9']

def isPyDigit (c : Char) : Bool := c ∈ digitChars

/-- Numeric value of a digit character. -/
def digitVal (c : Char) : Nat :=
  match c with
  | '0' => 0 | '1' => 1 | '2' => 2 | '3' => 3 | '4' => 4
  | '5' => 5 | '6' => 6 | '7' => 7 | '8' => 8 | _ => 9

/-- Digit character of `n` (meaningful for `n < 10`). -/
def digitChar (n : Nat) : Char := digitChars.getD n '0'

/-! ### Decimal rendering of integers (model of Python `str(int)`) -/

/-- Digits of `n`, least significant first; `fuel ≥ n` suffices.  (Fuel keeps
the recursion structural, so the kernel can evaluate it.) -/
def natDigitsRevAux : Nat → Nat → List Char
  | 0, _ => []
  | fuel + 1, n => if n = 0 then [] else digitChar (n % 10) :: natDigitsRevAux fuel (n / 10)

/-- Model of Python `str(n)` for a non-negative integer. -/
def natRepr (n : Nat) : String :=
  if n = 0 then "0" else ⟨(natDigitsRevAux n n).reverse⟩

/-- Model of Python `str(i)` for an integer. -/
def intRepr (i : Int) : String :=
  if i < 0 then "-" ++ natRepr i.natAbs else natRepr i.natAbs

/-! ### Exact model of Python `float` values -/

/-- A finite parsed numeric value, kept as the exact scaled integer
`num / den` where `den` is a positive power of ten (never normalized, so all
arithmetic is plain `Int`/`Nat` arithmetic). -/
structure PyFin where
  num : Int
  den : Nat
  deriving DecidableEq

/-- Result of Python `float(s)` when it succeeds. -/
inductive PyNum where
  | nan : PyNum
  | inf (neg : Bool) : PyNum
  | finite (v : PyFin) : PyNum
  deriving DecidableEq

/-- Model of Python `float.is_integer` on a finite value. -/
def pyFinIsInt (v : PyFin) : Bool := v.num % (v.den : Int) = 0

/-- Model of Python `int(x)` on a finite float (truncation; exact on
integral values, which is the only place the code applies it). -/
def pyFinIntVal (v : PyFin) : Int := v.num / (v.den : Int)

/-- Is the value strictly greater than zero (`float(x) > 0` in Python)?
`nan > 0` is false; `inf > 0` is true; a finite value is positive iff its
numerator is (the denominator is a positive power of ten). -/
def pyGt0 : PyNum → Bool
  | .nan => false
  | .inf neg => !neg
  | .finite v => 0 < v.num

/-! ### Parsing (model of Python `float(str)`) -/

/-- Validate and remove the underscores of a candidate numeric literal:
Python (PEP 515) allows `_` only between two digits. -/
def stripUnderscores : List Char → Option (List Char)
  | [] => some []
  | '_' :: _ => none
  | c :: '_' :: rest =>
    match rest with
    | [] => none
    | d :: _ =>
      if isPyDigit c && isPyDigit d then
        (stripUnderscores rest).map (fun t => c :: t)
      else none
  | c :: rest => (stripUnderscores rest).map (fun t => c :: t)

/-- Longest digit prefix of a character list, with the remainder. -/
def takeDigits : List Char → List Char × List Char
  | [] => ([], [])
  | c :: rest =>
    if isPyDigit c then
      let p := takeDigits rest
      (c :: p.1, p.2)
    else ([], c :: rest)

/-- Value of a digit string (most significant first). -/
def digitsToNat (l : List Char) : Nat := l.foldl (fun a c => a * 10 + digitVal c) 0

/-- Parse an unsigned numeric literal (already lower-cased, underscores
removed): `digits [. digits] [e [sign] digits]`, at least one mantissa
digit. -/
def parseNumber (l : List Char) : Option PyFin :=
  let ipr := takeDigits l
  let fpr : List Char × List Char :=
    match ipr.2 with
    | '.' :: t => takeDigits t
    | _ => ([], ipr.2)
  let rest2 : List Char :=
    match ipr.2 with
    | '.' :: t => (takeDigits t).2
    | _ => ipr.2
  if ipr.1 = [] && fpr.1 = [] then none
  else
    let mnum : Nat := digitsToNat (ipr.1 ++ fpr.1)
    let mden : Nat := 10 ^ fpr.1.length
    match rest2 with
    | [] => some ⟨(mnum : Int), mden⟩
    | 'e' :: t =>
      let sgn : Bool × List Char :=
        match t with
        | '+' :: r => (false, r)
        | '-' :: r => (true, r)
        | r => (false, r)
      let ed := takeDigits sgn.2
      if ed.1 = [] || !(ed.2 = []) then none
      else
        let e := digitsToNat ed.1
        if sgn.1 then some ⟨(mnum : Int), mden * 10 ^ e⟩
        else some ⟨(mnum : Int) * 10 ^ e, mden⟩
    | _ => none

/-- Parse the body of a float literal after the optional sign. -/
def parseBody (l : List Char) (neg : Bool) : Option PyNum :=
  if l = ['i', 'n', 'f'] || l = ['i', 'n', 'f', 'i', 'n', 'i', 't', 'y'] then
    some (.inf neg)
  else if l = ['n', 'a', 'n'] then some .nan
  else
    match stripUnderscores l with
    | none => none
    | some l2 =>
      (parseNumber l2).map (fun v => .finite (if neg then ⟨-v.num, v.den⟩ else v))

/-- Model of Python `float(s)`: strip whitespace, fold case, take an optional
sign, then named specials (`inf`/`infinity`/`nan`) or a numeric literal. -/
def pyParseFloat (s : String) : Option PyNum :=
  match (pyLower (pyStrip s)).data with
  | '+' :: rest => parseBody rest false
  | '-' :: rest => parseBody rest true
  | l => parseBody l false

/-! ### 2-decimal formatting (model of Python `f"{x:.2f}"`) -/

/-- Round `a / b` to the nearest integer, ties to even (`b > 0`). -/
def rheNat (a b : Nat) : Nat :=
  let f := a / b
  let r := a % b
  if 2 * r < b then f
  else if b < 2 * r then f + 1
  else if f % 2 = 0 then f else f + 1

/-- Render `n < 100` with exactly two digits. -/
def pad2 (n : Nat) : String := if n < 10 then "0" ++ natRepr n else natRepr n

/-- Model of Python `f"{x:.2f}"` on a finite value: round the magnitude to
hundredths (ties to even) and keep the sign of the value, so that e.g.
`-0.001` renders as `"-0.00"`. -/
def pyFmt2 (v : PyFin) : String :=
  (if v.num < 0 then "-" else "") ++
    natRepr (rheNat (v.num.natAbs * 100) v.den / 100) ++ "." ++
    pad2 (rheNat (v.num.natAbs * 100) v.den % 100)

/-! ### `normalize_items` (src/preprocess.py lines 233-264) -/

/-- The cleanup applied to one item before the sentinel filter: strip, then
either canonicalize numerically (`str(int(x))` for integral values,
`f"{x:.2f}"` otherwise, `nan`/`inf` rendered as Python renders them) or, when
`float()` fails, lower-case and replace spaces with underscores. -/
def normItemCore (item : String) : String :=
  match pyParseFloat (pyStrip item) with
  | some (.finite v) =>
    if pyFinIsInt v then intRepr (pyFinIntVal v) else pyFmt2 v
  | some .nan => "nan"
  | some (.inf neg) => if neg then "-inf" else "inf"
  | none => strReplaceSpace (pyLower (pyStrip item))

/-- The sentinel list of `normalize_items` (`['nan', 'null', 'none', '']`). -/
def normSentinels : List String := ["nan", "null", "none", ""]

/-- One item of `normalize_items`: `some` of the cleaned item if it survives
the `if clean_item and clean_item not in ['nan', 'null', 'none', '']` filter,
`none` if it is dropped. -/
def normItem (item : String) : Option String :=
  if normItemCore item ≠ "" ∧ normItemCore item ∉ normSentinels then
    some (normItemCore item)
  else none

/-- `normalize_items`: normalize every item of every transaction, dropping
filtered items and then empty transactions. -/
def normalize_items (transactions : List (List String)) : List (List String) :=
  (transactions.map (fun t => t.filterMap normItem)).filter (fun t => !t.isEmpty)

example : normalize_items [["3.00", "3.14159", "Milk ", " "]] = [["3", "3.14", "milk"]] := by decide

example : normalize_items [["0.001"]] = [["0.00"]] := by decide

example : normalize_items [["0.00"]] = [["0"]] := by decide

/-! ### Errors (the module reports failures as `ValueError`s) -/

inductive PyError where
  | valueError (msg : String) : PyError
  deriving DecidableEq

instance {ε α : Type} [DecidableEq ε] [DecidableEq α] : DecidableEq (Except ε α) :=
  fun x y =>
    match x, y with
    | .ok a, .ok b =>
      if h : a = b then isTrue (by rw [h])
      else isFalse (fun he => h (Except.ok.inj he))
    | .error a, .error b =>
      if h : a = b then isTrue (by rw [h])
      else isFalse (fun he => h (Except.error.inj he))
    | .ok _, .error _ => isFalse (fun he => Except.noConfusion he)
    | .error _, .ok _ => isFalse (fun he => Except.noConfusion he)

/-! ### Tabular format classification (src/preprocess.py lines 38-52) -/

inductive CsvFormat where
  | transactional : CsvFormat
  | matrix : CsvFormat
  | simple : CsvFormat
  deriving DecidableEq

/-- The lower-cased, stripped header cells (`[h.lower().strip() for h in header]`). -/
def headerLower (header : List String) : List String :=
  header.map (fun h => pyStrip (pyLower h))

/-- The branch structure of `load_csv_data`: long form when the folded header
contains both `transaction_id` and `item`; else matrix when more than two
columns; else simple. -/
def classifyHeader (header : List String) : CsvFormat :=
  if "transaction_id" ∈ headerLower header ∧ "item" ∈ headerLower header then
    .transactional
  else if header.length > 2 then .matrix
  else .simple

/-! ### Long-form extractor (src/preprocess.py lines 58-87) -/

/-- First-match column lookup: index of `name1` if present, else of `name2`
if present, else the default (models the `try/except` + conditional chain). -/
def colIdx (hl : List String) (name1 name2 : String) (dflt : Nat) : Nat :=
  match hl.indexOf? name1 with
  | some i => i
  | none =>
    match hl.indexOf? name2 with
    | some i => i
    | none => dflt

/-- Resolved transaction-id column: `transaction_id`, else `trans_id`, else 0. -/
def transIdx (header : List String) : Nat :=
  colIdx (headerLower header) "transaction_id" "trans_id" 0

/-- Resolved item column: `item`, else `product`, else 1. -/
def itemIdx (header : List String) : Nat :=
  colIdx (headerLower header) "item" "product" 1

/-- Insert one item into the per-transaction-id groups, preserving Python
dict insertion order: append to an existing group, or add a new group at the
end. -/
def insertGrouped (acc : List (String × List String)) (k v : String) :
    List (String × List String) :=
  if k ∈ acc.map Prod.fst then
    acc.map (fun g => if g.1 = k then (g.1, g.2 ++ [v]) else g)
  else acc ++ [(k, [v])]

/-- The retention test of the long-form row loop: the row is long enough for
both columns, and its stripped item cell is non-empty and not a
case-insensitive `nan`/`null`. -/
def transRowKept (ti ii : Nat) (row : List String) : Bool :=
  decide (max ti ii < row.length) &&
    (let item := pyStrip (row.getD ii "")
     !(item = "") && decide (pyLower item ∉ (["", "nan", "null"] : List String)))

/-- One iteration of the long-form row loop. -/
def transStep (ti ii : Nat) (acc : List (String × List String)) (row : List String) :
    List (String × List String) :=
  if transRowKept ti ii row then
    insertGrouped acc (pyStrip (row.getD ti "")) (pyStrip (row.getD ii ""))
  else acc

/-- `_load_transactional_format`: group the retained items of the post-header
rows by (stripped) transaction id and return the groups' item lists. -/
def _load_transactional_format (header : List String) (rows : List (List String)) :
    List (List String) :=
  ((rows.foldl (transStep (transIdx header) (itemIdx header)) []).map Prod.snd)

/-! ### Matrix extractor (src/preprocess.py lines 90-111) -/

/-- Is a matrix cell counted as present?  The cell must be non-empty and
non-blank; then `float(value) > 0` if it parses, otherwise the stripped
lower-cased cell must avoid `['0', 'false', 'no', '', 'nan']`. -/
def cellPresent (v : String) : Bool :=
  !(v = "") && !(pyStrip v = "") &&
    (match pyParseFloat v with
     | some n => pyGt0 n
     | none => decide (pyLower (pyStrip v) ∉ (["0", "false", "no", "", "nan"] : List String)))

/-- The `for i, value in enumerate(row)` loop of the matrix extractor,
started at index `i`. -/
def matrixRowAux (header : List String) : Nat → List String → List String
  | _, [] => []
  | i, v :: rest =>
    (if i < header.length ∧ cellPresent v then [pyStrip (header.getD i "")] else []) ++
      matrixRowAux header (i + 1) rest

/-- `_load_matrix_format` after the `file.seek(0)`: the first row is read
again as the header and the remaining rows are scanned cell by cell; rows
with no present item are dropped. -/
def _load_matrix_format (header : List String) (body : List (List String)) :
    List (List String) :=
  (body.map (fun row => matrixRowAux header 0 row)).filter (fun t => !t.isEmpty)

/-! ### Simple extractor (src/preprocess.py lines 114-127) -/

/-- Model of `','.join(row)` (as a character list). -/
def joinComma : List String → List Char
  | [] => []
  | [s] => s.data
  | s :: rest => s.data ++ ',' :: joinComma rest

/-- Model of `line.split(',')`: split on every comma, keeping empty pieces. -/
def splitCommaAux : List Char → List Char → List String
  | cur, [] => [⟨cur.reverse⟩]
  | cur, ',' :: rest => ⟨cur.reverse⟩ :: splitCommaAux [] rest
  | cur, c :: rest => splitCommaAux (c :: cur) rest

def splitComma (l : List Char) : List String := splitCommaAux [] l

/-- `_load_simple_format` after the `file.seek(0)`: every row (the header
too) is rejoined with commas, re-split on commas, stripped and filtered. -/
def _load_simple_format (rows : List (List String)) : List (List String) :=
  rows.filterMap (fun row =>
    if row = [] then none
    else
      let items := (splitComma (joinComma row)).filterMap (fun it =>
        let s := pyStrip it
        if s = "" then none else some s)
      if items = [] then none else some items)

/-! ### `load_csv_data` (src/preprocess.py lines 26-55) -/

/-- `load_csv_data` over the parsed rows of the file.  On a file with no rows
at all, `next(reader)` raises `StopIteration` (whose `str` is empty), which
the surrounding `except` wraps into the CSV load error. -/
def load_csv_data (rows : List (List String)) : Except PyError (List (List String)) :=
  match rows with
  | [] => .error (.valueError "Erreur lors du chargement du CSV : ")
  | header :: rest =>
    match classifyHeader header with
    | .transactional => .ok (_load_transactional_format header rest)
    | .matrix => .ok (_load_matrix_format header rest)
    | .simple => .ok (_load_simple_format (header :: rest))

example :
    load_csv_data [["transaction_id", "item"],
      ["T1", "apple"], ["T2", "banana"], ["T1", "milk"]] =
      .ok [["apple", "milk"], ["banana"]] := by decide

example :
    load_csv_data [["bread", "milk", "eggs"], ["1", "0", "2.5"]] =
      .ok [["bread", "eggs"]] := by decide

example : load_csv_data [["a", "b,c"]] = .ok [["a", "b", "c"]] := by decide

/-! ### Parsed JSON values (src/preprocess.py lines 130-209)

`json.load` yields nested lists/dicts/strings/numbers/booleans/null.  Integer
literals become Python `int`s and other numeric literals become floats, so the
model keeps the two apart.  Objects are association lists in insertion order
with distinct keys (Python dict semantics). -/

inductive Json where
  | null : Json
  | bool (b : Bool) : Json
  | intNum (n : Int) : Json
  | floatNum (v : PyFin) : Json
  | str (s : String) : Json
  | arr (elems : List Json) : Json
  | obj (fields : List (String × Json)) : Json

/-- Python truthiness of a parsed JSON value (`if x` in the comprehensions). -/
def pyTruthy : Json → Bool
  | .null => false
  | .bool b => b
  | .intNum n => !(n = 0)
  | .floatNum v => !(v.num = 0)
  | .str s => !(s = "")
  | .arr l => !l.isEmpty
  | .obj l => !l.isEmpty

/-- Number of trailing zeros of a power of ten (`10 ^ k ↦ k`). -/
def tenLog (den : Nat) : Nat := (natDigitsRevAux den den).length - 1

/-- Strip trailing `'0'` characters. -/
def trimRightZeros (l : List Char) : List Char :=
  (l.reverse.dropWhile (fun c => c = '0')).reverse

/-- Model of Python `str(x)` on a non-integral float `num / den`
(`den = 10 ^ k`): sign, integer part, and the `k` fractional digits with
trailing zeros removed.  (CPython prints the shortest round-tripping decimal
of the nearest binary double; on exact short decimals the two agree.  No
claim depends on this rendering.) -/
def floatRepr (v : PyFin) : String :=
  if pyFinIsInt v then intRepr (pyFinIntVal v) ++ ".0"
  else
    let k := tenLog v.den
    let fracNat := v.num.natAbs % v.den
    let digs := (natDigitsRevAux fracNat fracNat).reverse
    let frac := trimRightZeros (List.replicate (k - digs.length) '0' ++ digs)
    (if v.num < 0 then "-" else "") ++ natRepr (v.num.natAbs / v.den) ++ "." ++ ⟨frac⟩

/-- Model of Python `str(x)` on the scalar JSON values. -/
def pyStrAtom : Json → String
  | .null => "None"
  | .bool true => "True"
  | .bool false => "False"
  | .intNum n => intRepr n
  | .floatNum v => floatRepr v
  | _ => ""

mutual

/-- Model of Python `repr(x)` on a parsed JSON value, used when a list or
dict is stringified.  String quoting is modelled without escape processing;
no claim depends on these branches. -/
def pyReprVal : Json → String
  | .str s => "\x27" ++ s ++ "\x27"
  | .arr l => "[" ++ pyReprList l ++ "]"
  | .obj kvs => "\x7b" ++ pyReprFields kvs ++ "\x7d"
  | j => pyStrAtom j

def pyReprList : List Json → String
  | [] => ""
  | [x] => pyReprVal x
  | x :: xs => pyReprVal x ++ ", " ++ pyReprList xs

def pyReprFields : List (String × Json) → String
  | [] => ""
  | [kv] => "\x27" ++ kv.1 ++ "\x27: " ++ pyReprVal kv.2
  | kv :: rest => "\x27" ++ kv.1 ++ "\x27: " ++ pyReprVal kv.2 ++ ", " ++ pyReprFields rest

end

/-- Model of Python `str(x)` on a parsed JSON value. -/
def pyStr : Json → String
  | .str s => s
  | .arr l => "[" ++ pyReprList l ++ "]"
  | .obj kvs => "\x7b" ++ pyReprFields kvs ++ "\x7d"
  | j => pyStrAtom j

/-! ### `_extract_transaction_from_dict` (src/preprocess.py lines 187-209) -/

/-- The priority key list of the object-extraction heuristic. -/
def possible_keys : List String := ["items", "products", "events", "sequence", "data"]

/-- The reserved keys skipped by the fallback collection. -/
def reservedKeys : List String := ["id", "transaction_id", "user_id", "weight", "weights"]

/-- Dict lookup (`item_dict[key]` when `key in item_dict`). -/
def lookupKey (d : List (String × Json)) (k : String) : Option Json :=
  (d.find? (fun p => p.1 = k)).map (fun p => p.2)

/-- Stringify one candidate value: the non-falsy members of a list, in
order, or the stringified value itself. -/
def renderItemsVal : Json → List String
  | .arr l => (l.filter pyTruthy).map pyStr
  | v => [pyStr v]

/-- `_extract_transaction_from_dict`: try the priority keys in order; on a
hit return its rendered value; otherwise collect the rendered values of
every non-reserved key, flattening list values. -/
def _extract_transaction_from_dict (d : List (String × Json)) : List String :=
  match possible_keys.findSome? (fun k => lookupKey d k) with
  | some v => renderItemsVal v
  | none =>
    d.foldl (fun vs kv =>
      if kv.1 ∉ reservedKeys then
        match kv.2 with
        | .arr l => vs ++ (l.filter pyTruthy).map pyStr
        | v => vs ++ [pyStr v]
      else vs) []

/-! ### `load_json_data` (src/preprocess.py lines 130-184) -/

/-- Handling of one element of a top-level list (or of one value of a
top-level dict): a list is stringified member-wise (possibly to an empty
transaction, removed by the final filter), a dict goes through the heuristic
and is appended only when non-empty, anything else becomes a single-item
transaction. -/
def jsonElemTrans : Json → Option (List String)
  | .arr l => some ((l.filter pyTruthy).map pyStr)
  | .obj kvs =>
    let t := _extract_transaction_from_dict kvs
    if t.isEmpty then none else some t
  | x => some [pyStr x]

/-- The body of `load_json_data`'s `try` block: dispatch on the top-level
shape, then filter out empty transactions; a scalar or null top level raises
the shape error. -/
def loadJsonInner (data : Json) : Except PyError (List (List String)) :=
  match data with
  | .arr items => .ok ((items.filterMap jsonElemTrans).filter (fun t => !t.isEmpty))
  | .obj kvs =>
    .ok (((kvs.map Prod.snd).filterMap jsonElemTrans).filter (fun t => !t.isEmpty))
  | _ => .error (.valueError "Format JSON non reconnu")

/-- `load_json_data`: the `except` clause wraps any raised error into the
JSON load error with the original message appended. -/
def load_json_data (data : Json) : Except PyError (List (List String)) :=
  match loadJsonInner data with
  | .ok t => .ok t
  | .error (.valueError m) =>
    .error (.valueError ("Erreur lors du chargement du JSON : " ++ m))

example :
    load_json_data (.arr [.obj [("items", .arr [.str "X", .str "Y"])],
      .obj [("products", .arr [.str "Z"])]]) = .ok [["X", "Y"], ["Z"]] := by decide

example :
    load_json_data (.intNum 3) =
      .error (.valueError "Erreur lors du chargement du JSON : Format JSON non reconnu") := by decide

/-! ### `preprocess_data` (src/preprocess.py lines 6-23) -/

/-- Model of Python `path.endswith(suffixStr)` (case-sensitive). -/
def pyEndswith (s suffixStr : String) : Bool :=
  List.isSuffixOf suffixStr.data s.data

/-- `preprocess_data`: dispatch on the path suffix.  File access is an
external collaborator, so the function takes the would-be parsed contents of
the two paths; an unsupported extension raises before either is consulted. -/
def preprocess_data (dataPath : String) (csvRows : List (List String))
    (jsonVal : Json) : Except PyError (List (List String)) :=
  if pyEndswith dataPath ".csv" then load_csv_data csvRows
  else if pyEndswith dataPath ".json" then load_json_data jsonVal
  else .error (.valueError "Format non supporté. Utilisez CSV ou JSON.")

example :
    preprocess_data "data.txt" [] .null =
      .error (.valueError "Format non supporté. Utilisez CSV ou JSON.") := by decide

/-! ### Character-level lemmas -/

theorem pyLowerChar_eq_self_of_find_none (c : Char)
    (h : lowerPairs.find? (fun p => p.1 = c) = none) : pyLowerChar c = c := by
  simp [pyLowerChar, h]

theorem lowerPairs_snd_stable :
    lowerPairs.all (fun q => (lowerPairs.find? (fun p => p.1 = q.2)).isNone) = true := by
  decide

theorem pyLowerChar_idem (c : Char) : pyLowerChar (pyLowerChar c) = pyLowerChar c := by
  cases hf : lowerPairs.find? (fun p => p.1 = c) with
  | none =>
    rw [pyLowerChar_eq_self_of_find_none c hf, pyLowerChar_eq_self_of_find_none c hf]
  | some q =>
    have hq : q ∈ lowerPairs := List.mem_of_find?_eq_some hf
    have h2 := (List.all_eq_true.mp lowerPairs_snd_stable) q hq
    have h3 : lowerPairs.find? (fun p => p.1 = q.2) = none :=
      Option.isNone_iff_eq_none.mp h2
    have hc : pyLowerChar c = q.2 := by simp [pyLowerChar, hf]
    rw [hc, pyLowerChar_eq_self_of_find_none q.2 h3]

theorem pyLowerChar_fixed_of_numChar (c : Char) (h : c ∈ '-' :: '.' :: digitChars) :
    pyLowerChar c = c := by
  fin_cases h <;> decide

/-- Strings all of whose characters are case-fold fixed points are fixed by
`pyLower`. -/
theorem pyLower_eq_self (s : String) (h : ∀ c ∈ s.data, pyLowerChar c = c) :
    pyLower s = s := by
  obtain ⟨l⟩ := s
  show String.mk (l.map pyLowerChar) = String.mk l
  have : l.map pyLowerChar = l := by
    rw [List.map_congr_left h]
    exact List.map_id' l
  rw [this]

theorem digitChar_mem (n : Nat) : digitChar n ∈ digitChars := by
  unfold digitChar
  rcases Nat.lt_or_ge n digitChars.length with h | h
  · rw [List.getD_eq_getElem?_getD, List.getElem?_eq_getElem h]
    exact List.getElem_mem h
  · rw [List.getD_eq_getElem?_getD, List.getElem?_eq_none h]
    decide

theorem natDigitsRevAux_digit (fuel : Nat) :
    ∀ n, ∀ c ∈ natDigitsRevAux fuel n, c ∈ digitChars := by
  induction fuel with
  | zero => intro n c hc; simp [natDigitsRevAux] at hc
  | succ f ih =>
    intro n c hc
    rw [natDigitsRevAux] at hc
    split at hc
    · simp at hc
    · rcases List.mem_cons.mp hc with h | h
      · exact h ▸ digitChar_mem _
      · exact ih _ c h

theorem mem_natRepr_digit (n : Nat) : ∀ c ∈ (natRepr n).data, c ∈ digitChars := by
  intro c hc
  unfold natRepr at hc
  split at hc
  · have h0 : ("0" : String).data = ['0'] := rfl
    rw [h0] at hc
    simp at hc
    rw [hc]; decide
  · have hc' : c ∈ (natDigitsRevAux n n).reverse := hc
    exact natDigitsRevAux_digit n n c (List.mem_reverse.mp hc')

theorem mem_intRepr (i : Int) : ∀ c ∈ (intRepr i).data, c ∈ '-' :: digitChars := by
  intro c hc
  unfold intRepr at hc
  split at hc
  · rw [String.data_append] at hc
    rcases List.mem_append.mp hc with h | h
    · have hdash : ("-" : String).data = ['-'] := rfl
      rw [hdash] at h; simp at h; rw [h]; exact List.mem_cons_self _ _
    · exact List.mem_cons_of_mem _ (mem_natRepr_digit _ c h)
  · exact List.mem_cons_of_mem _ (mem_natRepr_digit _ c hc)

theorem mem_pad2 (n : Nat) : ∀ c ∈ (pad2 n).data, c ∈ digitChars := by
  intro c hc
  unfold pad2 at hc
  split at hc
  · rw [String.data_append] at hc
    rcases List.mem_append.mp hc with h | h
    · have h0 : ("0" : String).data = ['0'] := rfl
      rw [h0] at h; simp at h; rw [h]; decide
    · exact mem_natRepr_digit _ c h
  · exact mem_natRepr_digit _ c hc

theorem mem_pyFmt2 (v : PyFin) : ∀ c ∈ (pyFmt2 v).data, c ∈ '-' :: '.' :: digitChars := by
  intro c hc
  unfold pyFmt2 at hc
  rw [String.data_append, String.data_append, String.data_append] at hc
  rcases List.mem_append.mp hc with h | h
  · rcases List.mem_append.mp h with h2 | h2
    · rcases List.mem_append.mp h2 with h3 | h3
      · split at h3
        · have hdash : ("-" : String).data = ['-'] := rfl
          rw [hdash] at h3; simp at h3; rw [h3]; decide
        · have hemp : ("" : String).data = [] := rfl
          rw [hemp] at h3; simp at h3
      · exact List.mem_cons_of_mem _ (List.mem_cons_of_mem _ (mem_natRepr_digit _ c h3))
    · have hdot : ("." : String).data = ['.'] := rfl
      rw [hdot] at h2; simp at h2; rw [h2]; decide
  · exact List.mem_cons_of_mem _ (List.mem_cons_of_mem _ (mem_pad2 _ c h))

/-- The lower-then-underscore branch produces a string fixed by `pyLower`. -/
theorem pyLower_strReplaceSpace_pyLower (x : String) :
    pyLower (strReplaceSpace (pyLower x)) = strReplaceSpace (pyLower x) := by
  apply pyLower_eq_self
  intro c hc
  have hc' : c ∈ (x.data.map pyLowerChar).map (fun d => if d = ' ' then '_' else d) := hc
  obtain ⟨d, hd, rfl⟩ := List.mem_map.mp hc'
  obtain ⟨e, _, rfl⟩ := List.mem_map.mp hd
  by_cases hsp : pyLowerChar e = ' '
  · simp only [hsp]; decide
  · simp only [if_neg hsp]; exact pyLowerChar_idem e

/-- Every string `normalize_items` builds for an item is already lower-case:
`pyLower` fixes it. -/
theorem pyLower_normItemCore (s : String) :
    pyLower (normItemCore s) = normItemCore s := by
  unfold normItemCore
  cases hp : pyParseFloat (pyStrip s) with
  | none => exact pyLower_strReplaceSpace_pyLower (pyStrip s)
  | some n =>
    cases n with
    | nan => show pyLower "nan" = "nan"; decide
    | inf neg =>
      cases neg
      · show pyLower "inf" = "inf"; decide
      · show pyLower "-inf" = "-inf"; decide
    | finite v =>
      show pyLower (if pyFinIsInt v = true then intRepr (pyFinIntVal v) else pyFmt2 v) =
        if pyFinIsInt v = true then intRepr (pyFinIntVal v) else pyFmt2 v
      split
      · exact pyLower_eq_self _ (fun c hc =>
          pyLowerChar_fixed_of_numChar c
            (by
              rcases List.mem_cons.mp (mem_intRepr (pyFinIntVal v) c hc) with h | h
              · rw [h]; exact List.mem_cons_self _ _
              · exact List.mem_cons_of_mem _ (List.mem_cons_of_mem _ h)))
      · exact pyLower_eq_self _ (fun c hc => pyLowerChar_fixed_of_numChar c (mem_pyFmt2 v c hc))

/-- Soundness of the per-item filter of `normalize_items`. -/
theorem normItem_sound (s out : String) (h : normItem s = some out) :
    out ≠ "" ∧ out ∉ normSentinels ∧ pyLower out = out := by
  unfold normItem at h
  split at h
  · rename_i hcond
    cases h
    exact ⟨hcond.1, hcond.2, pyLower_normItemCore s⟩
  · exact absurd h (by simp)

/-! ### Claim C1 -/

/-- C1: for every input dataset, every transaction of `normalize_items` is
non-empty, and every item in it is a non-empty string that is not
case-insensitively equal to `nan`, `null`, `none`, or the empty string
(case-insensitive equality is equality after `pyLower`; the sentinel words
are already lower-case). -/
theorem normalize_items_no_sentinels (d : List (List String)) (t : List String)
    (ht : t ∈ normalize_items d) :
    t ≠ [] ∧ ∀ x ∈ t, x ≠ "" ∧ pyLower x ∉ (["nan", "null", "none", ""] : List String) := by
  unfold normalize_items at ht
  obtain ⟨hmap, hne⟩ := List.mem_filter.mp ht
  constructor
  · intro hnil
    rw [hnil] at hne
    simp at hne
  · intro x hx
    obtain ⟨t0, _, rfl⟩ := List.mem_map.mp hmap
    obtain ⟨s, _, hsome⟩ := List.mem_filterMap.mp hx
    obtain ⟨h1, h2, h3⟩ := normItem_sound s x hsome
    refine ⟨h1, ?_⟩
    rw [h3]
    exact h2

theorem normalize_items_no_sentinels_witness :
    ["milk"] ≠ [] ∧ ∀ x ∈ (["milk"] : List String),
      x ≠ "" ∧ pyLower x ∉ (["nan", "null", "none", ""] : List String) :=
  normalize_items_no_sentinels [["Milk "]] ["milk"] (by decide)

/-! ### Claim C7 -/

/-- An item is stable when it is either dropped by normalization or
normalizes to a string that re-normalizes to itself. -/
def stableItem (s : String) : Bool :=
  match normItem s with
  | none => true
  | some out => normItem out = some out

/-- C7 counterexample: `normalize_items` is not idempotent.  `"0.001"`
normalizes to `"0.00"` (a non-integral value formatted to two decimals), and
`"0.00"` re-normalizes to the integral rendering `"0"`. -/
theorem normalize_items_not_idempotent :
    normalize_items (normalize_items [["0.001"]]) ≠ normalize_items [["0.001"]] := by
  decide

theorem filterMap_normItem_fixed (l : List String)
    (h : ∀ x ∈ l, normItem x = some x) : l.filterMap normItem = l := by
  induction l with
  | nil => rfl
  | cons a rest ih =>
    rw [List.filterMap_cons, h a (List.mem_cons_self a rest)]
    rw [ih (fun x hx => h x (List.mem_cons_of_mem a hx))]

/-- C7, amended: `normalize_items` is idempotent on every dataset whose
items are all stable (each item is dropped, or its normalized form
re-normalizes to itself).  Unrestricted idempotence is refuted by
`normalize_items_not_idempotent`. -/
theorem normalize_items_idem_of_stable (d : List (List String))
    (hstab : ∀ t ∈ d, ∀ s ∈ t, stableItem s = true) :
    normalize_items (normalize_items d) = normalize_items d := by
  have key : ∀ t' ∈ normalize_items d, t'.filterMap normItem = t' := by
    intro t' ht'
    unfold normalize_items at ht'
    obtain ⟨hmap, _⟩ := List.mem_filter.mp ht'
    obtain ⟨t0, ht0, rfl⟩ := List.mem_map.mp hmap
    apply filterMap_normItem_fixed
    intro x hx
    obtain ⟨s, hs, hsome⟩ := List.mem_filterMap.mp hx
    have hst := hstab t0 ht0 s hs
    unfold stableItem at hst
    rw [hsome] at hst
    exact of_decide_eq_true hst
  have hmapfix : (normalize_items d).map (fun t => t.filterMap normItem) = normalize_items d := by
    rw [List.map_congr_left key]
    exact List.map_id' _
  show ((normalize_items d).map (fun t => t.filterMap normItem)).filter (fun t => !t.isEmpty) =
    normalize_items d
  rw [hmapfix]
  apply List.filter_eq_self.mpr
  intro t' ht'
  unfold normalize_items at ht'
  exact (List.mem_filter.mp ht').2

theorem normalize_items_idem_of_stable_witness :
    (∀ t ∈ ([["Milk ", "3.50"]] : List (List String)), ∀ s ∈ t, stableItem s = true) ∧
    normalize_items (normalize_items [["Milk ", "3.50"]]) = normalize_items [["Milk ", "3.50"]] :=
  ⟨by decide, normalize_items_idem_of_stable [["Milk ", "3.50"]] (by decide)⟩

/-! ### Claim C2 -/

/-- C2: the tabular classifier picks long form whenever the lower-cased,
stripped header contains both `transaction_id` and `item` — regardless of
the column count — and otherwise picks matrix form exactly for headers with
more than two columns, simple form for the rest. -/
theorem classifyHeader_priority (header : List String) :
    (("transaction_id" ∈ headerLower header ∧ "item" ∈ headerLower header) →
      classifyHeader header = .transactional) ∧
    (¬("transaction_id" ∈ headerLower header ∧ "item" ∈ headerLower header) →
      (classifyHeader header = .matrix ↔ 2 < header.length)) ∧
    (¬("transaction_id" ∈ headerLower header ∧ "item" ∈ headerLower header) →
      (classifyHeader header = .simple ↔ header.length ≤ 2)) := by
  refine ⟨?_, ?_, ?_⟩
  · intro h
    unfold classifyHeader
    rw [if_pos h]
  · intro h
    unfold classifyHeader
    rw [if_neg h]
    by_cases hl : header.length > 2
    · rw [if_pos hl]
      simp [hl]
    · rw [if_neg hl]
      constructor
      · intro he; exact absurd he (by simp)
      · intro he; exact absurd he hl
  · intro h
    unfold classifyHeader
    rw [if_neg h]
    by_cases hl : header.length > 2
    · rw [if_pos hl]
      constructor
      · intro he; exact absurd he (by simp)
      · intro he; omega
    · rw [if_neg hl]
      simp
      omega

theorem classifyHeader_priority_witness :
    classifyHeader [" Transaction_ID", "Item ", "weight"] = .transactional ∧
    classifyHeader ["a", "b", "c"] = .matrix ∧
    classifyHeader ["a", "b"] = .simple :=
  ⟨(classifyHeader_priority [" Transaction_ID", "Item ", "weight"]).1 (by decide),
   ((classifyHeader_priority ["a", "b", "c"]).2.1 (by decide)).mpr (by decide),
   ((classifyHeader_priority ["a", "b"]).2.2 (by decide)).mpr (by decide)⟩

/-! ### Claim C9 -/

def Json.isArr : Json → Bool
  | .arr _ => true
  | _ => false

def Json.isObj : Json → Bool
  | .obj _ => true
  | _ => false

/-- C9: when the parsed top-level JSON value is neither a list nor an object
(a scalar or null), loading fails with the unrecognized-shape error (raised
as `ValueError("Format JSON non reconnu")` and wrapped by the load-error
handler of `load_json_data`). -/
theorem load_json_data_shape_error (data : Json)
    (h1 : data.isArr = false) (h2 : data.isObj = false) :
    load_json_data data =
      .error (.valueError "Erreur lors du chargement du JSON : Format JSON non reconnu") := by
  cases data with
  | arr l => simp [Json.isArr] at h1
  | obj kvs => simp [Json.isObj] at h2
  | null => rfl
  | bool b => rfl
  | intNum n => rfl
  | floatNum v => rfl
  | str s => rfl

theorem load_json_data_shape_error_witness :
    load_json_data .null =
      .error (.valueError "Erreur lors du chargement du JSON : Format JSON non reconnu") :=
  load_json_data_shape_error .null rfl rfl

/-! ### Claim C10 -/

/-- C10: on a CSV input with no rows at all, `next(reader)` raises
`StopIteration` inside the guarded block (`str(StopIteration())` is the
empty string), so `load_csv_data` reports the wrapped load error instead of
returning an empty dataset. -/
theorem load_csv_data_empty_error :
    load_csv_data [] = .error (.valueError "Erreur lors du chargement du CSV : ") := rfl

/-! ### Claim C8 -/

/-- A path ending in `.json` cannot also end in `.csv`. -/
theorem pyEndswith_json_not_csv (p : String) (h : pyEndswith p ".json" = true) :
    pyEndswith p ".csv" = false := by
  cases hv : pyEndswith p ".csv" with
  | false => rfl
  | true =>
    unfold pyEndswith at h hv
    have s1 : (".json" : String).data <:+ p.data := List.isSuffixOf_iff_suffix.mp h
    have s2 : (".csv" : String).data <:+ p.data := List.isSuffixOf_iff_suffix.mp hv
    rcases List.suffix_or_suffix_of_suffix s1 s2 with hs | hs
    · exact absurd hs (by decide)
    · exact absurd hs (by decide)

/-- C8: `preprocess_data` fails with the unsupported-format error on every
path whose (case-sensitive) suffix is neither `.csv` nor `.json` — the
result does not depend on any file content, i.e. no file access is needed —
while a `.csv` suffix dispatches to the tabular path and a `.json` suffix to
the structured path. -/
theorem preprocess_data_dispatch :
    (∀ (p : String) (c : List (List String)) (j : Json),
      pyEndswith p ".csv" = false → pyEndswith p ".json" = false →
      preprocess_data p c j = .error (.valueError "Format non supporté. Utilisez CSV ou JSON.")) ∧
    (∀ (p : String) (c : List (List String)) (j : Json),
      pyEndswith p ".csv" = true → preprocess_data p c j = load_csv_data c) ∧
    (∀ (p : String) (c : List (List String)) (j : Json),
      pyEndswith p ".json" = true → preprocess_data p c j = load_json_data j) := by
  refine ⟨?_, ?_, ?_⟩
  · intro p c j h1 h2
    unfold preprocess_data
    rw [h1, h2]
    rfl
  · intro p c j h1
    unfold preprocess_data
    rw [h1]
    rfl
  · intro p c j h2
    unfold preprocess_data
    rw [pyEndswith_json_not_csv p h2, h2]
    rfl

theorem preprocess_data_dispatch_witness :
    preprocess_data "basket.yaml" [["x"]] (.str "y") =
        .error (.valueError "Format non supporté. Utilisez CSV ou JSON.") ∧
    preprocess_data "basket.csv" [["a", "b"]] .null = load_csv_data [["a", "b"]] ∧
    preprocess_data "basket.json" [] (.arr []) = load_json_data (.arr []) :=
  ⟨preprocess_data_dispatch.1 "basket.yaml" [["x"]] (.str "y") (by decide) (by decide),
   preprocess_data_dispatch.2.1 "basket.csv" [["a", "b"]] .null (by decide),
   preprocess_data_dispatch.2.2 "basket.json" [] (.arr []) (by decide)⟩

/-! ### Claim C4 -/

/-- The claim-side presence test: the cell is non-empty after trimming, and
either it parses to a value strictly greater than zero, or parsing fails and
the trimmed lower-cased cell is outside `{0, false, no, "", nan}`. -/
def claimPresent (v : String) : Bool :=
  !(pyStrip v = "") &&
    (((pyParseFloat v).map pyGt0).getD false ||
     ((pyParseFloat v).isNone &&
      decide (pyLower (pyStrip v) ∉ (["0", "false", "no", "", "nan"] : List String))))

theorem cellPresent_eq_claimPresent : cellPresent = claimPresent := by
  funext v
  by_cases hv : v = ""
  · subst hv
    rfl
  · unfold cellPresent claimPresent
    cases hp : pyParseFloat v with
    | some n => simp [hv, hp]
    | none => simp [hv, hp]

theorem matrixRowAux_eq_enumFrom (header : List String) (row : List String) :
    ∀ i, matrixRowAux header i row =
      ((row.enumFrom i).filter
        (fun p => decide (p.1 < header.length) && cellPresent p.2)).map
        (fun p => pyStrip (header.getD p.1 "")) := by
  induction row with
  | nil => intro i; rfl
  | cons v rest ih =>
    intro i
    rw [matrixRowAux, List.enumFrom_cons, List.filter_cons, ih]
    by_cases hq : i < header.length
    · by_cases hcp : cellPresent v = true
      · rw [if_pos (And.intro hq hcp)]
        have hb : (decide (i < header.length) && cellPresent v) = true := by
          simp [hq, hcp]
        rw [hb]
        simp
      · rw [if_neg (fun hand => hcp hand.2)]
        have hb : (decide (i < header.length) && cellPresent v) = false := by
          simp [hcp]
        rw [hb]
        simp
    · rw [if_neg (fun hand => hq hand.1)]
      have hb : (decide (i < header.length) && cellPresent v) = false := by
        simp [hq]
      rw [hb]
      simp

/-- C4: in matrix extraction, a row's transaction consists of the stripped
header names of exactly the enumerated cells whose index is within header
bounds and that satisfy the presence test (trimmed-non-empty, then numeric
`> 0` or, on parse failure, not in the falsy-string set), in row order;
rows with no present item contribute no transaction.  The claim's example
follows. -/
theorem matrix_extraction_characterization :
    (∀ (header : List String) (body : List (List String)),
      _load_matrix_format header body =
        (body.map (fun row =>
          ((row.enum.filter
            (fun p => decide (p.1 < header.length) && claimPresent p.2)).map
            (fun p => pyStrip (header.getD p.1 ""))))).filter (fun t => !t.isEmpty)) ∧
    _load_matrix_format ["bread", "milk", "eggs"] [["1", "0", "2.5"]] = [["bread", "eggs"]] := by
  constructor
  · intro header body
    unfold _load_matrix_format
    rw [← cellPresent_eq_claimPresent]
    congr 1
    apply List.map_congr_left
    intro row _
    rw [matrixRowAux_eq_enumFrom]
    rfl
  · decide

/-! ### Claim C6 -/

theorem pad2_length (n : Nat) (h : n < 100) : (pad2 n).data.length = 2 := by
  have hall : ((List.range 100).all (fun m => decide ((pad2 m).data.length = 2))) = true := by
    decide
  exact of_decide_eq_true (List.all_eq_true.mp hall n (List.mem_range.mpr h))

/-- `pyFmt2` always produces a dot followed by exactly two digits. -/
theorem pyFmt2_shape (v : PyFin) :
    ∃ pre a b, (pyFmt2 v).data = pre ++ ['.', a, b] ∧
      a ∈ digitChars ∧ b ∈ digitChars ∧ '.' ∉ pre := by
  have hlt : rheNat (v.num.natAbs * 100) v.den % 100 < 100 := Nat.mod_lt _ (by decide)
  have hlen := pad2_length _ hlt
  obtain ⟨a, b, hab⟩ :
      ∃ a b, (pad2 (rheNat (v.num.natAbs * 100) v.den % 100)).data = [a, b] := by
    cases hd : (pad2 (rheNat (v.num.natAbs * 100) v.den % 100)).data with
    | nil => rw [hd] at hlen; simp at hlen
    | cons x t =>
      cases t with
      | nil => rw [hd] at hlen; simp at hlen
      | cons y t2 =>
        cases t2 with
        | nil => exact ⟨x, y, rfl⟩
        | cons z t3 => rw [hd] at hlen; simp at hlen
  refine ⟨(if v.num < 0 then "-" else "").data ++
    (natRepr (rheNat (v.num.natAbs * 100) v.den / 100)).data, a, b, ?_, ?_, ?_, ?_⟩
  · unfold pyFmt2
    rw [String.data_append, String.data_append, String.data_append, hab]
    have hdot : ("." : String).data = ['.'] := rfl
    rw [hdot]
    simp [List.append_assoc]
  · exact mem_pad2 _ a (by rw [hab]; exact List.mem_cons_self _ _)
  · exact mem_pad2 _ b (by rw [hab]; exact List.mem_cons_of_mem _ (List.mem_cons_self _ _))
  · intro hmem
    rcases List.mem_append.mp hmem with h | h
    · by_cases hneg : v.num < 0
      · rw [if_pos hneg] at h
        have hdash : ("-" : String).data = ['-'] := rfl
        rw [hdash] at h
        simp at h
      · rw [if_neg hneg] at h
        have hemp : ("" : String).data = [] := rfl
        rw [hemp] at h
        simp at h
    · exact absurd (mem_natRepr_digit _ '.' h) (by decide)

/-- C6: item normalization trims the item; a successful parse to an
integral value renders as the integer's decimal string (which never
contains a decimal point), a parse to a non-integral value renders via the
2-decimal formatter (whose output ends in a dot and exactly two digits), a
failed parse lower-cases and replaces spaces with underscores; sentinel
results are then dropped.  The claim's four examples follow. -/
theorem normItem_rules :
    (∀ s v, pyParseFloat (pyStrip s) = some (.finite v) → pyFinIsInt v = true →
      normItemCore s = intRepr (pyFinIntVal v)) ∧
    (∀ s v, pyParseFloat (pyStrip s) = some (.finite v) → pyFinIsInt v = false →
      normItemCore s = pyFmt2 v) ∧
    (∀ s, pyParseFloat (pyStrip s) = none →
      normItemCore s = strReplaceSpace (pyLower (pyStrip s))) ∧
    (∀ v, ∃ pre a b, (pyFmt2 v).data = pre ++ ['.', a, b] ∧
      a ∈ digitChars ∧ b ∈ digitChars ∧ '.' ∉ pre) ∧
    (∀ i : Int, '.' ∉ (intRepr i).data) ∧
    (∀ s, normItem s =
      if normItemCore s ∈ normSentinels then none else some (normItemCore s)) ∧
    normItem "3.00" = some "3" ∧ normItem "3.14159" = some "3.14" ∧
    normItem "Milk " = some "milk" ∧ normItem " " = none := by
  refine ⟨?_, ?_, ?_, pyFmt2_shape, ?_, ?_, by decide, by decide, by decide, by decide⟩
  · intro s v hp hint
    unfold normItemCore
    rw [hp]
    show (if pyFinIsInt v = true then intRepr (pyFinIntVal v) else pyFmt2 v) =
      intRepr (pyFinIntVal v)
    rw [if_pos hint]
  · intro s v hp hint
    unfold normItemCore
    rw [hp]
    show (if pyFinIsInt v = true then intRepr (pyFinIntVal v) else pyFmt2 v) = pyFmt2 v
    rw [if_neg (by simp [hint])]
  · intro s hp
    unfold normItemCore
    rw [hp]
  · intro i hdot
    exact absurd (mem_intRepr i '.' hdot) (by decide)
  · intro s
    unfold normItem
    by_cases hmem : normItemCore s ∈ normSentinels
    · rw [if_neg (fun hand => hand.2 hmem), if_pos hmem]
    · have hne : normItemCore s ≠ "" := by
        intro he
        exact hmem (by rw [he]; decide)
      rw [if_pos (And.intro hne hmem), if_neg hmem]

theorem normItem_rules_witness :
    normItemCore "3.00" = intRepr (pyFinIntVal ⟨300, 100⟩) ∧
    normItemCore "3.14159" = pyFmt2 ⟨314159, 100000⟩ ∧
    normItemCore "Milk " = strReplaceSpace (pyLower (pyStrip "Milk ")) :=
  ⟨normItem_rules.1 "3.00" ⟨300, 100⟩ (by decide) (by decide),
   normItem_rules.2.1 "3.14159" ⟨314159, 100000⟩ (by decide) (by decide),
   normItem_rules.2.2.1 "Milk " (by decide)⟩

/-! ### Claim C5 -/

/-- Searching a key list for the first hit is the same as taking the head of
the keys that are present. -/
theorem findSome?_eq_filter_head {α β : Type} (keys : List α) (f : α → Option β) :
    keys.findSome? f = ((keys.filter (fun k => (f k).isSome)).head?).bind f := by
  induction keys with
  | nil => rfl
  | cons k rest ih =>
    cases hf : f k with
    | some v =>
      have hs : (f k).isSome = true := by rw [hf]; rfl
      rw [List.findSome?_cons_of_isSome rest hs, List.filter_cons, hs, if_pos rfl]
      show f k = f k
      rfl
    | none =>
      have hs : (f k).isSome = false := by rw [hf]; rfl
      have hn : (f k).isNone = true := by rw [hf]; rfl
      rw [List.findSome?_cons_of_isNone rest hn, List.filter_cons, hs]
      simp only [Bool.false_eq_true, if_false]
      exact ih

theorem extractStep_eq (vs : List String) (x : Json) :
    (match x with
     | .arr l => vs ++ (l.filter pyTruthy).map pyStr
     | v => vs ++ [pyStr v]) = vs ++ renderItemsVal x := by
  cases x <;> rfl

theorem extract_fallback_foldl (d : List (String × Json)) :
    ∀ init : List String,
      d.foldl (fun vs kv =>
        if kv.1 ∉ reservedKeys then
          match kv.2 with
          | .arr l => vs ++ (l.filter pyTruthy).map pyStr
          | v => vs ++ [pyStr v]
        else vs) init =
      init ++ (d.filter (fun kv => decide (kv.1 ∉ reservedKeys))).flatMap
        (fun kv => renderItemsVal kv.2) := by
  induction d with
  | nil => intro init; simp
  | cons kv rest ih =>
    intro init
    rw [List.foldl_cons, List.filter_cons]
    by_cases hr : kv.1 ∉ reservedKeys
    · rw [if_pos hr, extractStep_eq]
      have hdec : decide (kv.1 ∉ reservedKeys) = true := decide_eq_true hr
      rw [hdec, if_pos rfl, ih, List.flatMap_cons, List.append_assoc]
    · rw [if_neg hr]
      have hdec : decide (kv.1 ∉ reservedKeys) = false := decide_eq_false hr
      rw [hdec]
      simp only [Bool.false_eq_true, if_false]
      exact ih init

/-- C5: the object-to-transaction heuristic tries `items`, `products`,
`events`, `sequence`, `data` in order and renders the value of the first key
present (non-falsy list members stringified in order, or the stringified
scalar as a one-element transaction); only when none of these keys is
present does it collect the rendered values of every key outside the
reserved set.  The claim's example follows. -/
theorem extract_dict_priority :
    (∀ d : List (String × Json),
      _extract_transaction_from_dict d =
        match ((possible_keys.filter (fun k => (lookupKey d k).isSome)).head?).bind
            (lookupKey d) with
        | some v => renderItemsVal v
        | none =>
          (d.filter (fun kv => decide (kv.1 ∉ reservedKeys))).flatMap
            (fun kv => renderItemsVal kv.2)) ∧
    load_json_data (.arr [.obj [("items", .arr [.str "X", .str "Y"])],
      .obj [("products", .arr [.str "Z"])]]) = .ok [["X", "Y"], ["Z"]] := by
  constructor
  · intro d
    unfold _extract_transaction_from_dict
    rw [findSome?_eq_filter_head]
    cases h : ((possible_keys.filter (fun k => (lookupKey d k).isSome)).head?).bind
        (lookupKey d) with
    | some v => rfl
    | none =>
      rw [extract_fallback_foldl]
      rw [List.nil_append]
  · decide

/-! ### Claim C3 -/

/-- The distinct values of a list, in order of first appearance. -/
def firstKeys : List String → List String
  | [] => []
  | k :: rest => k :: (firstKeys rest).filter (fun x => decide (x ≠ k))

/-- The second components of the pairs whose key is `k`, in order. -/
def valsFor (k : String) (pairs : List (String × String)) : List String :=
  (pairs.filter (fun p => decide (p.1 = k))).map Prod.snd

theorem valsFor_cons (k : String) (p : String × String) (rest : List (String × String)) :
    valsFor k (p :: rest) =
      if p.1 = k then p.2 :: valsFor k rest else valsFor k rest := by
  by_cases h : p.1 = k
  · simp [valsFor, List.filter_cons, h]
  · simp [valsFor, List.filter_cons, h]

theorem insertGrouped_keys_mem (acc : List (String × List String)) (k v : String)
    (hk : k ∈ acc.map Prod.fst) :
    (insertGrouped acc k v).map Prod.fst = acc.map Prod.fst := by
  unfold insertGrouped
  rw [if_pos hk, List.map_map]
  apply List.map_congr_left
  intro g _
  by_cases hgk : g.1 = k
  · simp [hgk]
  · simp [hgk]

theorem insertGrouped_keys_not_mem (acc : List (String × List String)) (k v : String)
    (hk : k ∉ acc.map Prod.fst) :
    (insertGrouped acc k v).map Prod.fst = acc.map Prod.fst ++ [k] := by
  unfold insertGrouped
  rw [if_neg hk, List.map_append]
  rfl

/-- `valsFor` on a cons pair, with the pair components exposed. -/
theorem valsFor_cons' (k0 k v : String) (rest : List (String × String)) :
    valsFor k0 ((k, v) :: rest) =
      if k = k0 then v :: valsFor k0 rest else valsFor k0 rest := by
  rw [valsFor_cons]

/-- Invariant of the grouping fold: starting from any accumulator, the fold
appends each key's values to its group and adds the unseen keys in order of
first appearance. -/
theorem foldl_insertGrouped (pairs : List (String × String)) :
    ∀ acc : List (String × List String),
      pairs.foldl (fun a p => insertGrouped a p.1 p.2) acc =
        acc.map (fun g => (g.1, g.2 ++ valsFor g.1 pairs)) ++
        ((firstKeys (pairs.map Prod.fst)).filter
          (fun k => decide (k ∉ acc.map Prod.fst))).map
          (fun k => (k, valsFor k pairs)) := by
  induction pairs with
  | nil =>
    intro acc
    show acc = acc.map (fun g => (g.1, g.2 ++ valsFor g.1 [])) ++ _
    simp [valsFor, firstKeys]
  | cons p rest ih =>
    obtain ⟨k, v⟩ := p
    intro acc
    rw [List.foldl_cons, ih]
    simp only [List.map_cons, firstKeys]
    by_cases hk : k ∈ acc.map Prod.fst
    · rw [insertGrouped_keys_mem acc k v hk]
      have hpart1 :
          (insertGrouped acc k v).map (fun g => (g.1, g.2 ++ valsFor g.1 rest)) =
            acc.map (fun g => (g.1, g.2 ++ valsFor g.1 ((k, v) :: rest))) := by
        unfold insertGrouped
        rw [if_pos hk, List.map_map]
        apply List.map_congr_left
        intro g _
        by_cases hgk : g.1 = k
        · show ((fun g => (g.1, g.2 ++ valsFor g.1 rest)) (if g.1 = k then (g.1, g.2 ++ [v]) else g)) = _
          rw [if_pos hgk, valsFor_cons']
          have hkg : k = g.1 := hgk.symm
          rw [if_pos hkg]
          show (g.1, (g.2 ++ [v]) ++ valsFor g.1 rest) = (g.1, g.2 ++ (v :: valsFor g.1 rest))
          rw [List.append_assoc, List.singleton_append]
        · show ((fun g => (g.1, g.2 ++ valsFor g.1 rest)) (if g.1 = k then (g.1, g.2 ++ [v]) else g)) = _
          rw [if_neg hgk, valsFor_cons']
          have hkg : ¬(k = g.1) := fun he => hgk he.symm
          rw [if_neg hkg]
      rw [hpart1]
      congr 1
      rw [List.filter_cons]
      have hdk : decide (k ∉ acc.map Prod.fst) = false := by simp [hk]
      rw [hdk]
      simp only [Bool.false_eq_true, if_false]
      rw [List.filter_filter]
      have hfil :
          (firstKeys (rest.map Prod.fst)).filter
              (fun a => decide (a ∉ acc.map Prod.fst) && decide (a ≠ k)) =
            (firstKeys (rest.map Prod.fst)).filter
              (fun a => decide (a ∉ acc.map Prod.fst)) := by
        apply List.filter_congr
        intro x _
        by_cases hx1 : x ∈ acc.map Prod.fst
        · simp [hx1]
        · have hxk : x ≠ k := fun he => hx1 (he ▸ hk)
          simp [hx1, hxk]
      rw [hfil]
      apply List.map_congr_left
      intro x hx
      obtain ⟨_, hxb⟩ := List.mem_filter.mp hx
      have hxnot : x ∉ acc.map Prod.fst := of_decide_eq_true hxb
      have hxk : ¬(k = x) := fun he => hxnot (he ▸ hk)
      rw [valsFor_cons', if_neg hxk]
    · rw [insertGrouped_keys_not_mem acc k v hk]
      have hpart1 :
          (insertGrouped acc k v).map (fun g => (g.1, g.2 ++ valsFor g.1 rest)) =
            acc.map (fun g => (g.1, g.2 ++ valsFor g.1 ((k, v) :: rest))) ++
              [(k, v :: valsFor k rest)] := by
        unfold insertGrouped
        rw [if_neg hk, List.map_append]
        congr 1
        apply List.map_congr_left
        intro g hg
        have hkg : ¬(k = g.1) := by
          intro he
          exact hk (he ▸ List.mem_map_of_mem Prod.fst hg)
        rw [valsFor_cons', if_neg hkg]
      rw [hpart1, List.filter_cons]
      have hdk : decide (k ∉ acc.map Prod.fst) = true := by simp [hk]
      rw [hdk, if_pos rfl, List.map_cons]
      have hhead : valsFor k ((k, v) :: rest) = v :: valsFor k rest := by
        rw [valsFor_cons', if_pos rfl]
      rw [hhead, List.append_assoc, List.singleton_append]
      congr 2
      rw [List.filter_filter]
      have hfil :
          (firstKeys (rest.map Prod.fst)).filter
              (fun a => decide (a ∉ acc.map Prod.fst) && decide (a ≠ k)) =
            (firstKeys (rest.map Prod.fst)).filter
              (fun a => decide (a ∉ acc.map Prod.fst ++ [k])) := by
        apply List.filter_congr
        intro x _
        by_cases hx1 : x ∈ acc.map Prod.fst
        · simp [hx1, List.mem_append]
        · by_cases hx2 : x = k
          · simp [hx1, hx2, List.mem_append]
          · simp [hx1, hx2, List.mem_append]
      rw [hfil]
      apply List.map_congr_left
      intro x hx
      obtain ⟨_, hxb⟩ := List.mem_filter.mp hx
      have hxnot : x ∉ acc.map Prod.fst ++ [k] := of_decide_eq_true hxb
      have hxk : ¬(k = x) := by
        intro he
        apply hxnot
        rw [← he]
        exact List.mem_append.mpr (Or.inr (List.mem_singleton.mpr rfl))
      rw [valsFor_cons', if_neg hxk]

/-- The row loop is the grouping fold over the key/item pairs of the
retained rows. -/
theorem foldl_transStep_eq (ti ii : Nat) (rows : List (List String)) :
    ∀ acc, rows.foldl (transStep ti ii) acc =
      ((rows.filter (transRowKept ti ii)).map
        (fun r => (pyStrip (r.getD ti ""), pyStrip (r.getD ii "")))).foldl
        (fun a p => insertGrouped a p.1 p.2) acc := by
  induction rows with
  | nil => intro acc; rfl
  | cons r rest ih =>
    intro acc
    rw [List.foldl_cons, List.filter_cons]
    by_cases hkept : transRowKept ti ii r = true
    · rw [hkept, if_pos rfl, List.map_cons, List.foldl_cons]
      have hstep : transStep ti ii acc r =
          insertGrouped acc (pyStrip (r.getD ti "")) (pyStrip (r.getD ii "")) := by
        unfold transStep
        rw [if_pos hkept]
      rw [hstep]
      exact ih _
    · have hf : transRowKept ti ii r = false := by
        cases hv : transRowKept ti ii r
        · rfl
        · exact absurd hv hkept
      rw [hf]
      simp only [Bool.false_eq_true, if_false]
      have hstep : transStep ti ii acc r = acc := by
        unfold transStep
        rw [if_neg hkept]
      rw [hstep]
      exact ih acc

/-- C3: long-form extraction groups the retained rows' items by stripped
transaction id — each group lists its items in row order, and the groups
appear in order of first appearance of their transaction id.  The claim's
example follows. -/
theorem transactional_grouping :
    (∀ (header : List String) (rows : List (List String)),
      _load_transactional_format header rows =
        (firstKeys ((rows.filter (transRowKept (transIdx header) (itemIdx header))).map
          (fun r => pyStrip (r.getD (transIdx header) "")))).map
          (fun k =>
            ((rows.filter (transRowKept (transIdx header) (itemIdx header))).filter
              (fun r => decide (pyStrip (r.getD (transIdx header) "") = k))).map
              (fun r => pyStrip (r.getD (itemIdx header) "")))) ∧
    _load_transactional_format ["transaction_id", "item"]
      [["T1", "apple"], ["T2", "banana"], ["T1", "milk"]] =
      [["apple", "milk"], ["banana"]] := by
  constructor
  · intro header rows
    unfold _load_transactional_format
    rw [foldl_transStep_eq, foldl_insertGrouped]
    simp only [List.map_nil, List.nil_append]
    have hft :
        ((firstKeys (((rows.filter (transRowKept (transIdx header) (itemIdx header))).map
            (fun r => (pyStrip (r.getD (transIdx header) ""),
              pyStrip (r.getD (itemIdx header) "")))).map Prod.fst)).filter
          (fun k => decide (k ∉ ([] : List String)))) =
        firstKeys (((rows.filter (transRowKept (transIdx header) (itemIdx header))).map
            (fun r => (pyStrip (r.getD (transIdx header) ""),
              pyStrip (r.getD (itemIdx header) "")))).map Prod.fst) := by
      apply List.filter_eq_self.mpr
      intro a _
      simp
    rw [hft, List.map_map]
    have hkeys :
        ((rows.filter (transRowKept (transIdx header) (itemIdx header))).map
          (fun r => (pyStrip (r.getD (transIdx header) ""),
            pyStrip (r.getD (itemIdx header) "")))).map Prod.fst =
        (rows.filter (transRowKept (transIdx header) (itemIdx header))).map
          (fun r => pyStrip (r.getD (transIdx header) "")) := by
      rw [List.map_map]
      rfl
    rw [hkeys]
    apply List.map_congr_left
    intro x _
    show valsFor x _ = _
    unfold valsFor
    rw [List.filter_map, List.map_map]
    rfl
  · decide
